import Mathlib

/-!
# Verification of the Dynamic Quote Generator (v4 core)

A shallow embedding, in Lean 4, of the client-resident quote store of
`src/unnamed/part_000` (the "Dynamic Quote Generator v4" script), together
with proofs about its merge/reconciliation, import/export, load and insert
operations.

Conventions of the embedding:
* The module-level `quotes` array is passed explicitly as a `List Quote`.
* JavaScript numbers holding ids (`Date.now()`, server ids) are `Int`.
* `localStorage` / network I/O is represented by explicit values: the
  persisted snapshot is a field of `AppState`, and the outcome of
  `JSON.parse` / `fetch` is an `Except String _` argument.
* DOM rendering (`populateCategories`, `filterQuotes`, notification display)
  is out of scope; the notification *message* produced by the merge is
  embedded as `mergeNotification` because it is the observable summary.
-/

namespace QuoteApp

/-- A quote record: `{ id, text, category }` (source lines 6–11, 128–132). -/
structure Quote where
  id : Int
  text : String
  category : String
deriving Repr, DecidableEq

/-- One iteration of the `serverQuotes.forEach` loop of `resolveConflicts`
(source lines 206–216): look up a local record with the same `id`
(`quotes.findIndex(q => q.id === serverQuote.id)`); if absent, push the
server record; if present, overwrite it in place and increment the
conflict counter. -/
def mergeStep (acc : List Quote × Nat) (serverQuote : Quote) : List Quote × Nat :=
  match acc.1.findIdx? (fun q => q.id == serverQuote.id) with
  | none => (acc.1 ++ [serverQuote], acc.2)
  | some localIndex => (acc.1.set localIndex serverQuote, acc.2 + 1)

/-- `resolveConflicts` (source lines 203–227), restricted to its data effect:
fold the server records over the local list, returning the merged list and
the final `conflictsResolved` counter.  Persistence (`saveQuotes`) and the
notification are modelled separately (`resolveConflictsApp`,
`mergeNotification`). -/
def resolveConflicts (quotes serverQuotes : List Quote) : List Quote × Nat :=
  serverQuotes.foldl mergeStep (quotes, 0)

/-- The notification message emitted at the end of `resolveConflicts`
(source lines 218–222): it is the only summary the merge reports, and it is
a function of `conflictsResolved` alone. -/
def mergeNotification (conflictsResolved : Nat) : String :=
  if conflictsResolved > 0 then
    toString conflictsResolved ++ " conflicts resolved. Server data took precedence."
  else
    "Quotes synced with server successfully!"

example : resolveConflicts [⟨1, "A", "X"⟩] [⟨1, "A2", "X"⟩, ⟨2, "B", "Y"⟩]
    = ([⟨1, "A2", "X"⟩, ⟨2, "B", "Y"⟩], 1) := by decide

example : resolveConflicts [⟨1, "A", "X"⟩] [⟨1, "A", "X"⟩] = ([⟨1, "A", "X"⟩], 1) := by decide

/-! ## JSON values, load, import and export

`JSON.parse` / `JSON.stringify` operate on JSON values; we embed the value
space and represent a parse outcome as `Except String Json` (a JavaScript
`SyntaxError` thrown by `JSON.parse` is the `.error` case). -/

/-- A JSON value, as produced by `JSON.parse`. -/
inductive Json where
  | null
  | bool (b : Bool)
  | num (n : Int)
  | str (s : String)
  | arr (elems : List Json)
  | obj (fields : List (String × Json))
deriving Repr

/-- JavaScript truthiness test used by `JSON.parse(...) || defaults`
(source line 6): `null`, `false`, `0` and `""` are falsy. -/
def Json.isFalsy : Json → Bool
  | .null => true
  | .bool b => !b
  | .num n => n == 0
  | .str s => s == ""
  | _ => false

/-- Property access `o.key` on a parsed JSON object (`undefined` ↦ `none`). -/
def Json.getField : Json → String → Option Json
  | .obj fields, key => fields.lookup key
  | _, _ => none

/-- View a parsed JSON value as a quote record, reading the `id`, `text` and
`category` properties the way the script does.  The script stores parsed
objects as-is; on the shapes the claims exercise (objects with integer `id`
and string `text`/`category`, possibly empty) this view is exact.  A missing
or differently-typed property (JavaScript `undefined`) is represented by the
neutral values `0` / `""`. -/
def decodeQuote (j : Json) : Quote where
  id := match j.getField "id" with | some (.num n) => n | _ => 0
  text := match j.getField "text" with | some (.str s) => s | _ => ""
  category := match j.getField "category" with | some (.str s) => s | _ => ""

/-- Serialization of one quote, as in `JSON.stringify` (objects keep the
insertion order of their keys). -/
def encodeQuote (q : Quote) : Json :=
  .obj [("id", .num q.id), ("text", .str q.text), ("category", .str q.category)]

/-- The built-in default set the script falls back to (source lines 6–11). -/
def defaultQuotes : List Quote :=
  [⟨1, "The best way to predict the future is to invent it.", "Inspiration"⟩,
   ⟨2, "Life is what happens when you're busy making other plans.", "Life"⟩,
   ⟨3, "JavaScript is the language of the web.", "Programming"⟩,
   ⟨4, "Simplicity is the soul of efficiency.", "Motivation"⟩]

/-- View a parsed snapshot as a list of quotes.  (If the persisted value is
truthy but not an array the script would store it as-is — a shape outside
the record model and outside every claim; it plays no role below.) -/
def decodeQuotesJson : Json → List Quote
  | .arr elems => elems.map decodeQuote
  | _ => []

/-- Store initialization `let quotes = JSON.parse(localStorage.getItem("quotes")) || [...]`
(source lines 6–11).  The argument is the outcome of `JSON.parse` on the
persisted raw value: a missing key makes `getItem` return `null`, which
`JSON.parse` coerces to `"null"` and parses to JSON `null` (`.ok .null`); an
unparseable string makes `JSON.parse` throw (`.error _`).  There is no
`try`/`catch` around line 6, so a thrown `SyntaxError` propagates. -/
def loadQuotes (parsed : Except String Json) : Except String (List Quote) :=
  match parsed with
  | .error e => .error e
  | .ok j => .ok (if j.isFalsy then defaultQuotes else decodeQuotesJson j)

/-- `addQuote` (source lines 119–142), restricted to its data effect: trim
both inputs, reject (leave the store unchanged) if either is empty,
otherwise append a record with id `Date.now()` (the `now` argument). -/
def addQuote (quotes : List Quote) (now : Int) (text category : String) : List Quote :=
  if text.trim = "" || category.trim = "" then quotes
  else quotes ++ [⟨now, text.trim, category.trim⟩]

/-- The serialized payload written by `exportToJsonFile`
(source lines 147–158): `JSON.stringify(quotes, null, 2)`, i.e. the JSON
array of the encoded records.  Pure; no mutation. -/
def exportToJsonFile (quotes : List Quote) : Json :=
  .arr (quotes.map encodeQuote)

/-- `importFromJsonFile` (source lines 160–177), restricted to its data
effect.  The argument is the outcome of `JSON.parse` on the file text.  A
parse error or a non-array value is caught (`alert`, no mutation, `false`);
an array is appended element-wise (`quotes.push(...importedQuotes)`) with
no per-record validation, and the success notification is shown (`true`). -/
def importFromJsonFile (quotes : List Quote) (parsed : Except String Json) :
    List Quote × Bool :=
  match parsed with
  | .error _ => (quotes, false)
  | .ok (.arr elems) => (quotes ++ elems.map decodeQuote, true)
  | .ok _ => (quotes, false)

/-! ## Server sync -/

/-- A record of the mock API response (`jsonplaceholder` post), as used by
`fetchQuotesFromServer`: only `id` and `title` are read. -/
structure Post where
  id : Int
  title : String
deriving Repr, DecidableEq

/-- The `serverData.map(...)` conversion of source lines 190–194. -/
def postToQuote (item : Post) : Quote :=
  { id := item.id, text := item.title, category := "ServerSync" }

/-- The mutable state a reconciliation cycle can touch: the in-memory
`quotes` array and the persisted `localStorage` snapshot. -/
structure AppState where
  quotes : List Quote
  storedQuotes : List Quote
deriving Repr, DecidableEq

/-- `resolveConflicts` with its `saveQuotes()` call (source line 224): the
merged list replaces both the in-memory array and the persisted snapshot;
the conflict counter is returned alongside. -/
def resolveConflictsApp (st : AppState) (serverQuotes : List Quote) : AppState × Nat :=
  let merged := resolveConflicts st.quotes serverQuotes
  ({ quotes := merged.1, storedQuotes := merged.1 }, merged.2)

/-- One reconciliation cycle, `fetchQuotesFromServer` (source lines 184–200).
The argument is the single outcome of `await fetch(...)` + `await
response.json()`: a transport failure or malformed payload is the `.error`
case, caught by the `try`/`catch`, which only logs — no merge runs, nothing
is mutated, and the cycle ends (`none`; there is no retry in the function).
On success the posts are converted and merged, returning the conflict
count. -/
def fetchQuotesFromServer (st : AppState) (response : Except String (List Post)) :
    AppState × Option Nat :=
  match response with
  | .error _ => (st, none)
  | .ok serverData =>
      let res := resolveConflictsApp st (serverData.map postToQuote)
      (res.1, some res.2)

/-- `syncWithServer` (source lines 230–232) is
`function syncWithServer() { fetchQuotesFromServer(); }` — it contains no
in-flight flag or guard of any kind, so every trigger (manual button, and
the `setInterval(syncWithServer, 60000)` timer of line 235) unconditionally
starts a new fetch/merge cycle.  We model the number of cycles currently in
flight: a trigger always starts one more. -/
def syncWithServer (inFlight : Nat) : Nat := inFlight + 1

/-! ## Supporting lemmas about the merge fold -/

theorem set_of_getElem?_eq {α : Type} {l : List α} {i : Nat} {a : α}
    (h : l[i]? = some a) : l.set i a = l := by
  apply List.ext_getElem?
  intro n
  rcases eq_or_ne i n with rfl | hn
  · rw [List.getElem?_set_self (by
      rcases List.getElem?_eq_some_iff.mp h with ⟨hl, _⟩
      exact hl), h]
  · rw [List.getElem?_set_ne hn]

theorem findIdx?_id_none {qs : List Quote} {rid : Int}
    (h : qs.findIdx? (fun q => q.id == rid) = none) : ∀ q ∈ qs, q.id ≠ rid := by
  intro q hq
  simpa using List.findIdx?_eq_none_iff.mp h q hq

theorem findIdx?_id_some {qs : List Quote} {rid : Int} {i : Nat}
    (h : qs.findIdx? (fun q => q.id == rid) = some i) :
    ∃ hi : i < qs.length, qs[i].id = rid := by
  obtain ⟨hi, hp, -⟩ := List.findIdx?_eq_some_iff_getElem.mp h
  exact ⟨hi, by simpa using hp⟩

/-- Overwriting the record found by `findIndex` does not change the id column. -/
theorem map_id_set {qs : List Quote} {r : Quote} {i : Nat}
    (h : qs.findIdx? (fun q => q.id == r.id) = some i) :
    (qs.set i r).map Quote.id = qs.map Quote.id := by
  obtain ⟨hi, hid⟩ := findIdx?_id_some h
  rw [List.map_set]
  apply set_of_getElem?_eq
  rw [List.getElem?_map, List.getElem?_eq_getElem hi]
  simp [hid]

/-- Whether some record carries a given id depends only on the id column. -/
theorem any_id_congr {l₁ l₂ : List Quote} (h : l₁.map Quote.id = l₂.map Quote.id) (x : Int) :
    l₁.any (fun q => q.id == x) = l₂.any (fun q => q.id == x) := by
  have key : ∀ l : List Quote, l.any (fun q => q.id == x)
      = (l.map Quote.id).any (fun y => y == x) := by
    intro l; induction l with
    | nil => rfl
    | cons a l ih => simp [List.any_cons, ih]
  rw [key l₁, key l₂, h]

/-- Ids already present are never lost by the merge fold. -/
theorem mem_map_id_foldl (rs : List Quote) : ∀ (qs : List Quote) (c : Nat) (x : Int),
    x ∈ qs.map Quote.id → x ∈ (rs.foldl mergeStep (qs, c)).1.map Quote.id := by
  induction rs with
  | nil => intro qs c x hx; simpa using hx
  | cons r rs ih =>
    intro qs c x hx
    rw [List.foldl_cons]
    cases h : qs.findIdx? (fun q => q.id == r.id) with
    | none =>
      have step : mergeStep (qs, c) r = (qs ++ [r], c) := by simp [mergeStep, h]
      rw [step]
      exact ih _ _ _ (by rw [List.map_append]; exact List.mem_append_left _ hx)
    | some i =>
      have step : mergeStep (qs, c) r = (qs.set i r, c + 1) := by simp [mergeStep, h]
      rw [step]
      exact ih _ _ _ (by rw [map_id_set h]; exact hx)

/-- After the merge fold, every processed server id is present in the store. -/
theorem remote_id_mem_foldl (rs : List Quote) : ∀ (qs : List Quote) (c : Nat) (r : Quote),
    r ∈ rs → r.id ∈ (rs.foldl mergeStep (qs, c)).1.map Quote.id := by
  induction rs with
  | nil => intro qs c r hr; cases hr
  | cons r0 rs ih =>
    intro qs c r hr
    rw [List.foldl_cons]
    rcases List.mem_cons.mp hr with rfl | hr'
    · cases h : qs.findIdx? (fun q => q.id == r.id) with
      | none =>
        have step : mergeStep (qs, c) r = (qs ++ [r], c) := by simp [mergeStep, h]
        rw [step]
        exact mem_map_id_foldl rs _ _ _ (by simp)
      | some i =>
        obtain ⟨hi, hid⟩ := findIdx?_id_some h
        have step : mergeStep (qs, c) r = (qs.set i r, c + 1) := by simp [mergeStep, h]
        rw [step]
        apply mem_map_id_foldl rs _ _ _
        rw [map_id_set h, ← hid]
        exact List.mem_map_of_mem _ (qs.getElem_mem hi)
    · cases h : qs.findIdx? (fun q => q.id == r0.id) with
      | none =>
        have step : mergeStep (qs, c) r0 = (qs ++ [r0], c) := by simp [mergeStep, h]
        rw [step]; exact ih _ _ _ hr'
      | some i =>
        have step : mergeStep (qs, c) r0 = (qs.set i r0, c + 1) := by simp [mergeStep, h]
        rw [step]; exact ih _ _ _ hr'

/-- If every server id is already present, the fold counts every server record. -/
theorem foldl_count_all_matched (rs : List Quote) : ∀ (qs : List Quote) (c : Nat),
    (∀ r ∈ rs, r.id ∈ qs.map Quote.id) → (rs.foldl mergeStep (qs, c)).2 = c + rs.length := by
  induction rs with
  | nil => intro qs c _; rfl
  | cons r rs ih =>
    intro qs c hall
    have hr : r.id ∈ qs.map Quote.id := hall r (List.mem_cons_self r rs)
    cases h : qs.findIdx? (fun q => q.id == r.id) with
    | none =>
      exfalso
      rcases List.mem_map.mp hr with ⟨q, hq, hid⟩
      exact findIdx?_id_none h q hq hid
    | some i =>
      rw [List.foldl_cons]
      have step : mergeStep (qs, c) r = (qs.set i r, c + 1) := by simp [mergeStep, h]
      rw [step, ih _ _ ?_]
      · simp [List.length_cons]; omega
      · intro r' hr'
        rw [map_id_set h]
        exact hall r' (List.mem_cons_of_mem _ hr')

/-- For a server set with pairwise distinct ids, the fold's counter counts
exactly the server records whose id is already present locally. -/
theorem foldl_count (rs : List Quote) : ∀ (qs : List Quote) (c : Nat),
    (rs.map Quote.id).Nodup →
    (rs.foldl mergeStep (qs, c)).2
      = c + (rs.filter (fun r => qs.any (fun q => q.id == r.id))).length := by
  induction rs with
  | nil => intro qs c _; rfl
  | cons r rs ih =>
    intro qs c hnd
    rw [List.map_cons, List.nodup_cons] at hnd
    obtain ⟨hrid, hnd'⟩ := hnd
    rw [List.foldl_cons, List.filter_cons]
    cases h : qs.findIdx? (fun q => q.id == r.id) with
    | none =>
      have hnone := findIdx?_id_none h
      have hany : qs.any (fun q => q.id == r.id) = false := by
        rw [List.any_eq_false]
        intro q hq
        simpa using hnone q hq
      rw [hany]
      have step : mergeStep (qs, c) r = (qs ++ [r], c) := by simp [mergeStep, h]
      rw [step, ih _ _ hnd']
      simp only [Bool.false_eq_true, if_false]
      congr 2
      apply List.filter_congr
      intro x hx
      have hxid : (r.id == x.id) = false := by
        simp only [beq_eq_false_iff_ne, ne_eq]
        intro hEq
        exact hrid (hEq ▸ List.mem_map_of_mem _ hx)
      rw [List.any_append]
      simp [hxid, BEq.symm_false hxid]
    | some i =>
      obtain ⟨hi, hid⟩ := findIdx?_id_some h
      have hany : qs.any (fun q => q.id == r.id) = true := by
        rw [List.any_eq_true]
        exact ⟨qs[i], qs.getElem_mem hi, by simp [hid]⟩
      rw [hany]
      have step : mergeStep (qs, c) r = (qs.set i r, c + 1) := by simp [mergeStep, h]
      rw [step, ih _ _ hnd']
      have hf : rs.filter (fun x => (qs.set i r).any (fun q => q.id == x.id))
          = rs.filter (fun x => qs.any (fun q => q.id == x.id)) := by
        apply List.filter_congr
        intro x hx
        exact any_id_congr (map_id_set h) x.id
      rw [hf]
      simp [List.length_cons]
      omega

/-- A local record whose id never occurs among the server records keeps its
position and its value through the merge fold. -/
theorem foldl_preserves_unmatched (rs : List Quote) : ∀ (qs : List Quote) (c : Nat) (i : Nat)
    (hi : i < qs.length), qs[i].id ∉ rs.map Quote.id →
    (rs.foldl mergeStep (qs, c)).1[i]? = some qs[i] := by
  induction rs with
  | nil => intro qs c i hi _; exact List.getElem?_eq_getElem hi
  | cons r rs ih =>
    intro qs c i hi hmem
    rw [List.map_cons, List.mem_cons] at hmem
    push_neg at hmem
    obtain ⟨hne, hmem'⟩ := hmem
    rw [List.foldl_cons]
    cases h : qs.findIdx? (fun q => q.id == r.id) with
    | none =>
      have step : mergeStep (qs, c) r = (qs ++ [r], c) := by simp [mergeStep, h]
      rw [step]
      have hi' : i < (qs ++ [r]).length := by simp; omega
      have hget : (qs ++ [r])[i] = qs[i] := List.getElem_append_left hi
      have := ih (qs ++ [r]) c i hi' (by rw [hget]; exact hmem')
      rw [this, hget]
    | some j =>
      obtain ⟨hj, hjid⟩ := findIdx?_id_some h
      have hne' : j ≠ i := by
        intro hEq
        subst hEq
        exact hne hjid
      have step : mergeStep (qs, c) r = (qs.set j r, c + 1) := by simp [mergeStep, h]
      rw [step]
      have hi' : i < (qs.set j r).length := by simpa using hi
      have hget : (qs.set j r)[i] = qs[i] := List.getElem_set_ne hne' (by simpa using hi)
      have := ih (qs.set j r) (c + 1) i hi' (by rw [hget]; exact hmem')
      rw [this, hget]

/-- The record a merged position ends up holding: the server record with the
matching id if there is one, the local record otherwise. -/
def replaceById (remote : List Quote) (q : Quote) : Quote :=
  match remote.find? (fun r => r.id == q.id) with
  | some r => r
  | none => q

/-- Closed form of the merged list (for id-distinct inputs): the local
records in their original positions, each overwritten by its id-matching
server record when one exists, followed by the id-unmatched server records
in their server order. -/
def mergeSpecList (qs rs : List Quote) : List Quote :=
  qs.map (replaceById rs) ++ rs.filter (fun r => !qs.any (fun q => q.id == r.id))

theorem replaceById_of_not_mem {rs : List Quote} {r : Quote}
    (h : r.id ∉ rs.map Quote.id) : replaceById rs r = r := by
  unfold replaceById
  have : rs.find? (fun x => x.id == r.id) = none := by
    rw [List.find?_eq_none]
    intro x hx
    simp only [beq_iff_eq]
    intro hEq
    exact h (hEq ▸ List.mem_map_of_mem _ hx)
  rw [this]

/-- The merge fold computes `mergeSpecList` when both id columns are
duplicate-free. -/
theorem foldl_merge_list (rs : List Quote) : ∀ (qs : List Quote) (c : Nat),
    (qs.map Quote.id).Nodup → (rs.map Quote.id).Nodup →
    (rs.foldl mergeStep (qs, c)).1 = mergeSpecList qs rs := by
  induction rs with
  | nil =>
    intro qs c _ _
    simp only [List.foldl_nil, mergeSpecList, List.filter_nil, List.append_nil]
    have : ∀ q ∈ qs, replaceById [] q = q := fun q _ => rfl
    rw [List.map_congr_left this, List.map_id']
  | cons r rs ih =>
    intro qs c hq hr
    rw [List.map_cons, List.nodup_cons] at hr
    obtain ⟨hrid, hr'⟩ := hr
    have hrr : replaceById rs r = r := replaceById_of_not_mem hrid
    rw [List.foldl_cons]
    cases h : qs.findIdx? (fun q => q.id == r.id) with
    | none =>
      have hnone := findIdx?_id_none h
      have step : mergeStep (qs, c) r = (qs ++ [r], c) := by simp [mergeStep, h]
      rw [step]
      have hq' : ((qs ++ [r]).map Quote.id).Nodup := by
        rw [List.map_append, List.nodup_append]
        refine ⟨hq, List.nodup_singleton _, ?_⟩
        intro x hx hx1
        rcases List.mem_map.mp hx with ⟨q, hqm, hqid⟩
        simp only [List.map_cons, List.map_nil, List.mem_singleton] at hx1
        exact hnone q hqm (hqid ▸ hx1 ▸ rfl)
      rw [ih _ c hq' hr']
      unfold mergeSpecList
      rw [List.map_append]
      have hmap : qs.map (replaceById (r :: rs)) = qs.map (replaceById rs) := by
        apply List.map_congr_left
        intro q hq2
        unfold replaceById
        have : (r.id == q.id) = false := by
          simp only [beq_eq_false_iff_ne, ne_eq]
          intro hEq
          exact hnone q hq2 hEq.symm
        rw [List.find?_cons_of_neg _ (by simp [this])]
      have hfil : rs.filter (fun x => !(qs ++ [r]).any (fun q => q.id == x.id))
          = rs.filter (fun x => !qs.any (fun q => q.id == x.id)) := by
        apply List.filter_congr
        intro x hx
        have hxid : (r.id == x.id) = false := by
          simp only [beq_eq_false_iff_ne, ne_eq]
          intro hEq
          exact hrid (hEq ▸ List.mem_map_of_mem _ hx)
        rw [List.any_append]
        simp [hxid]
      have hfil2 : (r :: rs).filter (fun x => !qs.any (fun q => q.id == x.id))
          = r :: rs.filter (fun x => !qs.any (fun q => q.id == x.id)) := by
        rw [List.filter_cons]
        have : qs.any (fun q => q.id == r.id) = false := by
          rw [List.any_eq_false]
          intro q hq2
          simpa using hnone q hq2
        simp [this]
      rw [hmap, hfil, hfil2]
      simp only [List.map_cons, List.map_nil]
      rw [hrr, List.append_assoc]
      rfl
    | some i =>
      obtain ⟨hi, hiid⟩ := findIdx?_id_some h
      have step : mergeStep (qs, c) r = (qs.set i r, c + 1) := by simp [mergeStep, h]
      rw [step]
      have hidpres := map_id_set h
      have hq' : ((qs.set i r).map Quote.id).Nodup := by rw [hidpres]; exact hq
      rw [ih _ _ hq' hr']
      unfold mergeSpecList
      have hmap : (qs.set i r).map (replaceById rs) = qs.map (replaceById (r :: rs)) := by
        apply List.ext_getElem
        · simp
        · intro n h1 h2
          rw [List.getElem_map, List.getElem_map]
          have hn2 : n < qs.length := by simpa using h2
          rcases eq_or_ne n i with rfl | hn
          · rw [List.getElem_set_self (by simpa using h1)]
            rw [hrr]
            unfold replaceById
            rw [List.find?_cons_of_pos _ (by simp [hiid])]
          · rw [List.getElem_set_ne (Ne.symm hn) (by simpa using h1)]
            unfold replaceById
            have hn3 : n < (qs.map Quote.id).length := by simpa using hn2
            have hi3 : i < (qs.map Quote.id).length := by simpa using hi
            have hne : (r.id == qs[n].id) = false := by
              simp only [beq_eq_false_iff_ne, ne_eq]
              intro hEq
              have h3 : (qs.map Quote.id)[n] = (qs.map Quote.id)[i] := by
                rw [List.getElem_map, List.getElem_map, hiid, hEq]
              have := (List.Nodup.getElem_inj_iff hq).mp h3
              exact hn this
            rw [List.find?_cons_of_neg _ (by simp [hne])]
      have hfil : rs.filter (fun x => !(qs.set i r).any (fun q => q.id == x.id))
          = rs.filter (fun x => !qs.any (fun q => q.id == x.id)) := by
        apply List.filter_congr
        intro x hx
        rw [any_id_congr hidpres x.id]
      have hfil2 : (r :: rs).filter (fun x => !qs.any (fun q => q.id == x.id))
          = rs.filter (fun x => !qs.any (fun q => q.id == x.id)) := by
        rw [List.filter_cons]
        have : qs.any (fun q => q.id == r.id) = true := by
          rw [List.any_eq_true]
          exact ⟨qs[i], qs.getElem_mem hi, by simp [hiid]⟩
        simp [this]
      rw [hmap, hfil, hfil2]

/-! ## Claim theorems -/

/-- Claim C1 counterexample.  The claim says a remote record field-for-field
identical to its local counterpart is a no-op and is not counted as a
conflict.  In the code, `resolveConflicts` never compares fields: with local
`[{1,"A","X"}]` and remote `[{1,"A","X"}]` (identical), the conflict counter
comes out `1`, not `0`. -/
theorem identical_remote_counted_as_conflict :
    (resolveConflicts [⟨1, "A", "X"⟩] [⟨1, "A", "X"⟩]).2 = 1 ∧
    (resolveConflicts [⟨1, "A", "X"⟩] [⟨1, "A", "X"⟩]).2 ≠ 0 := by
  constructor
  · decide
  · decide

/-- Claim C1 as amended: for a remote set with pairwise distinct ids, every
remote record whose id matches some local record is counted as exactly one
conflict (the remote record overwrites the local one in place), regardless
of whether any field differs — the counter equals the number of id-matched
remote records.  Unmatched remote records are appended and not counted. -/
theorem resolveConflicts_count_eq_matched (qs rs : List Quote)
    (h : (rs.map Quote.id).Nodup) :
    (resolveConflicts qs rs).2
      = (rs.filter (fun r => qs.any (fun q => q.id == r.id))).length := by
  unfold resolveConflicts
  rw [foldl_count rs qs 0 h]
  omega

/-- Witness for `resolveConflicts_count_eq_matched` at a concrete input. -/
theorem resolveConflicts_count_eq_matched_witness :
    (([⟨1, "A2", "X"⟩, ⟨2, "B", "Y"⟩] : List Quote).map Quote.id).Nodup ∧
    (resolveConflicts [⟨1, "A", "X"⟩] [⟨1, "A2", "X"⟩, ⟨2, "B", "Y"⟩]).2
      = (([⟨1, "A2", "X"⟩, ⟨2, "B", "Y"⟩] : List Quote).filter
          (fun r => ([⟨1, "A", "X"⟩] : List Quote).any (fun q => q.id == r.id))).length :=
  ⟨by decide, resolveConflicts_count_eq_matched [⟨1, "A", "X"⟩]
      [⟨1, "A2", "X"⟩, ⟨2, "B", "Y"⟩] (by decide)⟩

/-- Claim C2 counterexample.  The claim says re-applying the same remote set
yields `conflictsResolved == 0` on the second application.  In the code the
second application counts every remote record: with local `[]` and remote
`[{1,"A","X"}]`, the second application reports `1`, not `0`. -/
theorem second_merge_count_nonzero :
    (resolveConflicts (resolveConflicts [] [⟨1, "A", "X"⟩]).1 [⟨1, "A", "X"⟩]).2 = 1 ∧
    (resolveConflicts (resolveConflicts [] [⟨1, "A", "X"⟩]).1 [⟨1, "A", "X"⟩]).2 ≠ 0 := by
  constructor
  · decide
  · decide

/-- Claim C2 as amended: immediately re-applying `resolveConflicts` with the
same remote set reports `conflictsResolved` equal to the full length of the
remote set (after the first application every remote id is present locally,
so every remote record is counted as a conflict) — `0` only for an empty
remote set, never because the fields already match. -/
theorem second_merge_count_eq_remote_length (qs rs : List Quote) :
    (resolveConflicts (resolveConflicts qs rs).1 rs).2 = rs.length := by
  unfold resolveConflicts
  rw [foldl_count_all_matched rs _ 0 (fun r hr => remote_id_mem_foldl rs qs 0 r hr)]
  omega

/-- Claim C3 counterexample.  The claim says merge produces a summary
containing both a `conflictsResolved` count and a `newRecords` count.  The
code's entire reported summary is the notification, a function of
`conflictsResolved` alone: two runs that append different numbers of new
records (1 versus 0) produce the identical count and identical notification,
so no `newRecords` count is part of the summary. -/
theorem merge_summary_lacks_new_record_count :
    (resolveConflicts [⟨1, "A", "X"⟩] [⟨1, "A2", "X"⟩, ⟨2, "B", "Y"⟩]).2
      = (resolveConflicts [⟨1, "A", "X"⟩] [⟨1, "A2", "X"⟩]).2 ∧
    mergeNotification (resolveConflicts [⟨1, "A", "X"⟩] [⟨1, "A2", "X"⟩, ⟨2, "B", "Y"⟩]).2
      = mergeNotification (resolveConflicts [⟨1, "A", "X"⟩] [⟨1, "A2", "X"⟩]).2 ∧
    (resolveConflicts [⟨1, "A", "X"⟩] [⟨1, "A2", "X"⟩, ⟨2, "B", "Y"⟩]).1.length = 2 ∧
    (resolveConflicts [⟨1, "A", "X"⟩] [⟨1, "A2", "X"⟩]).1.length = 1 := by
  refine ⟨by decide, ?_, by decide, by decide⟩
  have h : (resolveConflicts [⟨1, "A", "X"⟩] [⟨1, "A2", "X"⟩, ⟨2, "B", "Y"⟩]).2
      = (resolveConflicts [⟨1, "A", "X"⟩] [⟨1, "A2", "X"⟩]).2 := by decide
  rw [h]

/-- Claim C3 as amended: in the concrete scenario (local
`[{1,"A","X"}]`, remote `[{1,"A2","X"},{2,"B","Y"}]`) the merged store has
exactly the 2 records with id 1's text overwritten to `"A2"`, and the merge
reports `conflictsResolved == 1` — through the notification message, the
only summary it produces; no `newRecords` count is computed or reported
(one record was appended, observable only as the length increase). -/
theorem merge_concrete_scenario :
    resolveConflicts [⟨1, "A", "X"⟩] [⟨1, "A2", "X"⟩, ⟨2, "B", "Y"⟩]
      = ([⟨1, "A2", "X"⟩, ⟨2, "B", "Y"⟩], 1) ∧
    mergeNotification 1 = "1 conflicts resolved. Server data took precedence." := by
  constructor
  · decide
  · rfl

/-- Claim C4 (confirmed): merge never deletes local-only records — a local
record whose id appears nowhere in the remote set is still present after
`resolveConflicts`, at its original position and with all fields
unchanged. -/
theorem merge_never_deletes_local_only (qs rs : List Quote) (i : Nat)
    (hi : i < qs.length) (h : qs[i].id ∉ rs.map Quote.id) :
    (resolveConflicts qs rs).1[i]? = some qs[i] := by
  unfold resolveConflicts
  exact foldl_preserves_unmatched rs qs 0 i hi h

/-- Witness for `merge_never_deletes_local_only` at a concrete input. -/
theorem merge_never_deletes_local_only_witness :
    1 < ([⟨1, "A", "X"⟩, ⟨3, "C", "Z"⟩] : List Quote).length ∧
    (([⟨1, "A", "X"⟩, ⟨3, "C", "Z"⟩] : List Quote)[1].id
        ∉ ([⟨1, "A2", "X"⟩] : List Quote).map Quote.id) ∧
    (resolveConflicts [⟨1, "A", "X"⟩, ⟨3, "C", "Z"⟩] [⟨1, "A2", "X"⟩]).1[1]?
      = some ⟨3, "C", "Z"⟩ :=
  ⟨by decide, by decide,
    merge_never_deletes_local_only [⟨1, "A", "X"⟩, ⟨3, "C", "Z"⟩] [⟨1, "A2", "X"⟩] 1
      (by decide) (by decide)⟩

/-- Claim C5 (confirmed): a reconciliation cycle whose fetch fails (transport
failure or malformed payload, the `.error` outcome of
`await fetch` / `await response.json()`) performs no local mutation at all —
the in-memory list and the persisted snapshot are returned exactly as they
were, no merge runs (`none`), and the cycle consumes its single fetch
outcome with no retry. -/
theorem fetch_failure_no_mutation (st : AppState) (e : String) :
    fetchQuotesFromServer st (.error e) = (st, none) := rfl

/-- Claim C6 counterexample.  The claim says triggering a new cycle while
one is in flight is a no-op.  `syncWithServer` has no in-flight guard:
triggering twice before any completion leaves two cycles in flight. -/
theorem overlapping_sync_cycles :
    syncWithServer (syncWithServer 0) = 2 ∧ ¬ syncWithServer (syncWithServer 0) ≤ 1 := by
  constructor
  · rfl
  · decide

/-- Claim C6 as amended: the code has no in-flight guard — every trigger of
`syncWithServer` (manual button or 60-second timer) unconditionally starts
one more fetch/merge cycle and is never a no-op, so reconciliation cycles
can overlap. -/
theorem sync_trigger_always_starts_cycle (inFlight : Nat) :
    syncWithServer inFlight = inFlight + 1 ∧ syncWithServer inFlight ≠ inFlight := by
  constructor
  · rfl
  · simp [syncWithServer]

/-- Claim C7 (confirmed): the export→import round trip.  Importing the
payload written by `exportToJsonFile` succeeds (array accepted, success
notification) and appends a copy of every record, leaving the store at
exactly twice its original record count with every original record present
unchanged (as the prefix of the result). -/
theorem export_import_roundtrip (qs : List Quote) :
    importFromJsonFile qs (.ok (exportToJsonFile qs)) = (qs ++ qs, true) ∧
    (importFromJsonFile qs (.ok (exportToJsonFile qs))).1.length = 2 * qs.length := by
  have h1 : importFromJsonFile qs (.ok (exportToJsonFile qs)) = (qs ++ qs, true) := by
    simp only [importFromJsonFile, exportToJsonFile, List.map_map]
    have : (decodeQuote ∘ encodeQuote) = id := by funext q; rfl
    simp [this]
  refine ⟨h1, ?_⟩
  rw [h1]
  simp [List.length_append]
  omega

/-- Claim C8 counterexample.  The claim says load recovers silently from
every missing **or malformed** snapshot.  `JSON.parse` at line 6 is not
wrapped in `try`/`catch`: an unparseable snapshot makes load propagate the
parse error instead of returning the defaults. -/
theorem load_malformed_snapshot_raises :
    loadQuotes (.error "SyntaxError: Unexpected token") =
      .error "SyntaxError: Unexpected token" ∧
    loadQuotes (.error "SyntaxError: Unexpected token") ≠ .ok defaultQuotes := by
  constructor
  · rfl
  · intro hcontra
    exact Except.noConfusion hcontra

/-- Claim C8 as amended: on a *missing* snapshot (`getItem` returns `null`,
which parses to JSON `null`) load silently falls back to the built-in
default set of exactly 4 seed records; but on an *unparseable* snapshot the
`JSON.parse` error propagates — load fails instead of recovering. -/
theorem load_missing_defaults_malformed_raises :
    loadQuotes (.ok Json.null) = .ok defaultQuotes ∧
    defaultQuotes.length = 4 ∧
    ∀ e : String, loadQuotes (.error e) = .error e :=
  ⟨rfl, rfl, fun _ => rfl⟩

/-- Claim C9 counterexample.  The claim says no record is ever stored with
empty text or empty category.  `importFromJsonFile` validates only the
outer array shape: importing `[{id:99,text:"",category:""}]` succeeds and
stores a record with empty text and empty category. -/
theorem import_stores_empty_fields :
    ((importFromJsonFile defaultQuotes
        (.ok (Json.arr [Json.obj
          [("id", Json.num 99), ("text", Json.str ""), ("category", Json.str "")]]))).1.any
      (fun q => q.text == "" && q.category == "")) = true := by
  decide

/-- Claim C9 as amended: only the insert path enforces the non-emptiness
invariant — `addQuote` trims both inputs and rejects the insertion when
either trims to empty, so it preserves "no stored record has empty text or
category"; the import and merge paths append records without validating
their fields, so they can store empty ones. -/
theorem addQuote_preserves_nonempty (qs : List Quote) (now : Int) (text category : String)
    (h : ∀ q ∈ qs, q.text ≠ "" ∧ q.category ≠ "") :
    ∀ q ∈ addQuote qs now text category, q.text ≠ "" ∧ q.category ≠ "" := by
  intro q hq
  unfold addQuote at hq
  by_cases hg : (text.trim = "" || category.trim = "") = true
  · rw [if_pos hg] at hq
    exact h q hq
  · rw [if_neg hg] at hq
    rcases List.mem_append.mp hq with hq' | hq'
    · exact h q hq'
    · rw [List.mem_singleton] at hq'
      subst hq'
      simp only [Bool.or_eq_true, decide_eq_true_eq, not_or] at hg
      exact ⟨hg.1, hg.2⟩

/-- Witness for `addQuote_preserves_nonempty` at a concrete input. -/
theorem addQuote_preserves_nonempty_witness :
    (∀ q ∈ ([] : List Quote), q.text ≠ "" ∧ q.category ≠ "") ∧
    ∀ q ∈ addQuote [] 5 "hello" "world", q.text ≠ "" ∧ q.category ≠ "" :=
  ⟨by simp, addQuote_preserves_nonempty [] 5 "hello" "world" (by simp)⟩

/-- Claim C10 (confirmed, for id-distinct local and remote sets): merge
preserves the positions of all pre-existing local records — position `i`
holds the id-matching remote record when one exists (`replaceById`) and the
untouched local record otherwise — and the id-unmatched remote records are
appended after all of them, in the remote set's order. -/
theorem merge_order_and_append (qs rs : List Quote)
    (hq : (qs.map Quote.id).Nodup) (hr : (rs.map Quote.id).Nodup) :
    (resolveConflicts qs rs).1
      = qs.map (replaceById rs)
        ++ rs.filter (fun r => !qs.any (fun q => q.id == r.id)) := by
  unfold resolveConflicts
  rw [foldl_merge_list rs qs 0 hq hr]
  rfl

/-- Witness for `merge_order_and_append` at a concrete input. -/
theorem merge_order_and_append_witness :
    (([⟨1, "A", "X"⟩, ⟨3, "C", "Z"⟩] : List Quote).map Quote.id).Nodup ∧
    (([⟨1, "A2", "X"⟩, ⟨2, "B", "Y"⟩] : List Quote).map Quote.id).Nodup ∧
    (resolveConflicts [⟨1, "A", "X"⟩, ⟨3, "C", "Z"⟩] [⟨1, "A2", "X"⟩, ⟨2, "B", "Y"⟩]).1
      = ([⟨1, "A", "X"⟩, ⟨3, "C", "Z"⟩] : List Quote).map
          (replaceById [⟨1, "A2", "X"⟩, ⟨2, "B", "Y"⟩])
        ++ ([⟨1, "A2", "X"⟩, ⟨2, "B", "Y"⟩] : List Quote).filter
            (fun r => !([⟨1, "A", "X"⟩, ⟨3, "C", "Z"⟩] : List Quote).any
              (fun q => q.id == r.id)) :=
  ⟨by decide, by decide,
    merge_order_and_append [⟨1, "A", "X"⟩, ⟨3, "C", "Z"⟩] [⟨1, "A2", "X"⟩, ⟨2, "B", "Y"⟩]
      (by decide) (by decide)⟩

end QuoteApp
